import Mathlib

/-!
Shallow embedding of the data pipeline of `src/app.py` (mnd-dashboard).

The program loads a CSV table with pandas, renames source-specific column
labels to a canonical schema, coerces the date column to calendar dates
(unparseable entries become missing), drops rows with missing or
out-of-range-year dates, sorts descending by date, fills remaining missing
cells with 0, then filters by an inclusive date range, computes latest
metrics and day-over-day deltas, and serializes the filtered table as
UTF-8-with-BOM comma-separated text.

A table is modelled as a header (a list of column names, duplicates
allowed, as pandas allows after a colliding rename) together with a list
of rows; each cell is a string, an integer, a parsed date, or a missing
value (NaN/NaT).  Date parsing (`pd.to_datetime` on one entry) is an
external-library call and is taken as a parameter `parse`; a concrete
ISO-format instance `parseIso` is provided for evaluation.
-/

/-- A calendar date, as produced by date parsing (no time component). -/
structure Date where
  y : Nat
  m : Nat
  d : Nat
deriving DecidableEq

/-- Numeric key giving the chronological order used for comparisons and sorting. -/
def Date.key (a : Date) : Nat := a.y * 10000 + a.m * 100 + a.d

/-- A cell of a pandas table: string, integer, parsed date, or missing (NaN/NaT). -/
inductive Val where
  | vstr (s : String)
  | vint (n : Int)
  | vdate (dt : Date)
  | vna
deriving DecidableEq

/-- A pandas DataFrame: column names (duplicates possible) and rows of cells. -/
structure Table where
  header : List String
  rows : List (List Val)
deriving DecidableEq

/-- The column-rename dictionary of `load_data` (src/app.py lines 41-47).
Both the misspelled and the corrected ADIZ label map to `enter_adiz`. -/
def renameMap : List (String × String) :=
  [("日期", "date"),
   ("共機架次", "total_aircraft"),
   ("共艦架次", "ships"),
   ("進入AIDZ共機架次", "enter_adiz"),
   ("進入ADIZ共機架次", "enter_adiz")]

/-- Rename one column label through the dictionary (unknown labels unchanged). -/
def rn (h : String) : String :=
  match List.find? (fun p => p.1 == h) renameMap with
  | some p => p.2
  | none => h

/-- `df.rename(columns=...)`: every column label is mapped; rows are untouched.
Two source labels mapping to one target leave two identically named columns. -/
def renameTable (t : Table) : Table :=
  ⟨t.header.map rn, t.rows⟩

/-- Index of the first column with the given name, as used by `df[name]`. -/
def colIdx : List String → String → Option Nat
  | [], _ => none
  | h :: t, name => if h = name then some 0 else (colIdx t name).map (· + 1)

/-- Cell of a row at a column index; out-of-range reads give a missing value. -/
def cellAt (r : List Val) (i : Nat) : Val := r.getD i Val.vna

/-- Replace the cell at index `i` of a row by `f` of it. -/
def mapAt : Nat → (Val → Val) → List Val → List Val
  | _, _, [] => []
  | 0, f, v :: vs => f v :: vs
  | i + 1, f, v :: vs => v :: mapAt i f vs

/-- `pd.to_datetime(cell, errors='coerce')`: a string is parsed (failure
gives missing), a date stays, anything else becomes missing. -/
def toDatetimeCell (parse : String → Option Date) : Val → Val
  | Val.vstr s =>
      match parse s with
      | some dt => Val.vdate dt
      | none => Val.vna
  | Val.vdate dt => Val.vdate dt
  | _ => Val.vna

/-- `notna`: true for any non-missing cell. -/
def notnaVal : Val → Bool
  | Val.vna => false
  | _ => true

/-- The year-range sanity test of line 54: parsed year within [2000, 2050]. -/
def yearOk : Val → Bool
  | Val.vdate dt => decide (2000 ≤ dt.y) && decide (dt.y ≤ 2050)
  | _ => false

/-- `df.fillna(0)` on one row: every missing cell becomes integer 0. -/
def fillnaRow (r : List Val) : List Val :=
  r.map (fun v => if v = Val.vna then Val.vint 0 else v)

/-- Sort key of a row for `sort_values(by='date', ascending=False)`:
the key of the date cell at column `i`. -/
def rowKey (i : Nat) (r : List Val) : Nat :=
  match cellAt r i with
  | Val.vdate dt => dt.key
  | _ => 0

/-- Insert an element into a descending-by-key list, before the first
element whose key is not larger (stable for equal keys). -/
def insertDesc {α : Type} (k : α → Nat) (a : α) : List α → List α
  | [] => [a]
  | x :: xs => if k x ≤ k a then a :: x :: xs else x :: insertDesc k a xs

/-- One admissible result of `sort_values(by='date', ascending=False)`,
here a descending insertion sort.  The program passes no `kind`, so the
sort is the default quicksort, whose order among equal keys is
unspecified; `sortValuesAdmissible` below characterizes the full set of
admissible results, and no theorem may rely on this particular choice of
tie order except under hypotheses that make every admissible result
coincide (pairwise-distinct keys). -/
def sortDesc {α : Type} (k : α → Nat) (l : List α) : List α :=
  l.foldr (insertDesc k) []

/-- Adjacent-pairs check: the list is descending by key (ties allowed). -/
def isSortedDesc {α : Type} (k : α → Nat) : List α → Bool
  | [] => true
  | [_] => true
  | a :: b :: t => decide (k b ≤ k a) && isSortedDesc k (b :: t)

/-- What `sort_values(by=..., ascending=False)` guarantees about its
result under the default (not stable) kind: some permutation of the
input that is descending by key.  The order among rows with equal keys
is not specified by the program. -/
def sortValuesAdmissible {α : Type} (k : α → Nat) (l l' : List α) : Prop :=
  l'.Perm l ∧ isSortedDesc k l' = true

/-- `load_data` (src/app.py lines 33-58) after the CSV has been fetched:
rename columns, coerce the date column, drop rows whose date is missing
after coercion, drop rows whose year is outside [2000, 2050], sort
descending by date, fill remaining missing cells with 0.  `none` models
the fatal branch (the `except` handler ending in `st.stop()`), reached
when no `date` column exists after the rename. -/
def loadData (parse : String → Option Date) (t : Table) : Option Table :=
  let t1 := renameTable t
  match colIdx t1.header "date" with
  | none => none
  | some i =>
      let rows1 := t1.rows.map (mapAt i (toDatetimeCell parse))
      let rows2 := rows1.filter (fun r => notnaVal (cellAt r i))
      let rows3 := rows2.filter (fun r => yearOk (cellAt r i))
      let rows4 := sortDesc (rowKey i) rows3
      let rows5 := rows4.map fillnaRow
      some ⟨t1.header, rows5⟩

/-- Left-pad a numeral to two digits (`%m`, `%d` of strftime). -/
def pad2 (n : Nat) : String :=
  if n < 10 then "0" ++ toString n else toString n

/-- Left-pad a numeral to four digits (`%Y` of strftime). -/
def pad4 (n : Nat) : String :=
  if n < 10 then "000" ++ toString n
  else if n < 100 then "00" ++ toString n
  else if n < 1000 then "0" ++ toString n
  else toString n

/-- `strftime('%Y-%m-%d')`. -/
def fmtDate (dt : Date) : String :=
  pad4 dt.y ++ "-" ++ pad2 dt.m ++ "-" ++ pad2 dt.d

/-- The `date_str` cell derived from a date cell (line 68). -/
def dateStrVal : Val → Val
  | Val.vdate dt => Val.vstr (fmtDate dt)
  | _ => Val.vna

/-- `df['date_str'] = df['date'].dt.strftime('%Y-%m-%d')` (line 68):
append a `date_str` column computed from the `date` column. -/
def addDateStr (t : Table) : Table :=
  match colIdx t.header "date" with
  | some i => ⟨t.header ++ ["date_str"], t.rows.map (fun r => r ++ [dateStrVal (cellAt r i)])⟩
  | none => t

/-- The range mask of line 100: the date cell lies in `[s, e]` inclusive. -/
def inRangeVal (s e : Date) : Val → Bool
  | Val.vdate dt => decide (s.key ≤ dt.key) && decide (dt.key ≤ e.key)
  | _ => false

/-- Lines 97-105: keep the rows whose date falls within the selected range. -/
def filterView (s e : Date) (t : Table) : Table :=
  match colIdx t.header "date" with
  | some i => ⟨t.header, t.rows.filter (fun r => inRangeVal s e (cellAt r i))⟩
  | none => ⟨t.header, []⟩

/-- Split a list of characters at every occurrence of `c`. -/
def splitChar (c : Char) : List Char → List (List Char)
  | [] => [[]]
  | x :: xs =>
      match splitChar c xs with
      | [] => if x = c then [[], []] else [[x]]
      | y :: ys => if x = c then [] :: y :: ys else (x :: y) :: ys

/-- Read a nonempty all-digit character list as a number. -/
def digitsToNat : List Char → Option Nat
  | [] => none
  | l =>
      if l.all Char.isDigit then
        some (l.foldl (fun acc c => acc * 10 + (c.toNat - 48)) 0)
      else none

/-- Concrete date parser for ISO `YYYY-MM-DD` strings, a particular
instance of the `parse` parameter (pandas accepts this format). -/
def parseIso (s : String) : Option Date :=
  match splitChar '-' s.toList with
  | [ys, ms, ds] =>
      match digitsToNat ys, digitsToNat ms, digitsToNat ds with
      | some y, some m, some d => some ⟨y, m, d⟩
      | _, _, _ => none
  | _ => none

/-- Scalar column access `row[name]`: pandas yields a scalar only when the
label occurs exactly once; a missing label raises `KeyError` and a
duplicated label yields a sub-Series (on which the `int(...)` conversions
of lines 125-127 and 140-158 raise).  Both failures are `none`. -/
def getUnique (header : List String) (r : List Val) (name : String) : Option Val :=
  if header.count name = 1 then
    match colIdx header name with
    | some i => some (cellAt r i)
    | none => none
  else none

/-- `int(cell)` as used on a single metric value: an integer stays, a
numeric string converts, anything else raises (`none`). -/
def valToInt : Val → Option Int
  | Val.vint n => some n
  | Val.vstr s =>
      match splitChar '-' s.toList with
      | [l] => (digitsToNat l).map Int.ofNat
      | [[], l] => (digitsToNat l).map (fun n => -(Int.ofNat n))
      | _ => none
  | _ => none

/-- `int(a - b)` as in the delta computations of lines 125-127: defined
only when both cells are integers (string cells make `-` raise). -/
def valSub : Val → Val → Option Int
  | Val.vint a, Val.vint b => some (a - b)
  | _, _ => none

/-- What an f-string interpolation displays for a cell (line 133). -/
def showVal : Val → String
  | Val.vstr s => s
  | Val.vint n => toString n
  | Val.vdate dt => fmtDate dt
  | Val.vna => "nan"

/-- The headline block rendered by lines 133-159: the latest date string,
the three latest counts, and their three deltas. -/
structure Metrics where
  dateStr : String
  total_aircraft : Int
  enter_adiz : Int
  ships : Int
  dAircraft : Int
  dAdiz : Int
  dShips : Int
deriving DecidableEq

/-- Outcome of rendering the metrics section: the empty-data warning
branch (line 247), a successful metrics block, or an uncaught exception. -/
inductive Rendered where
  | noData
  | metrics (m : Metrics)
  | crash
deriving DecidableEq

/-- Lines 119-159: with no rows, render the warning branch; otherwise take
`latest = iloc[0]`, compute the three deltas against `iloc[1]` when a
second row exists (else 0), and read the three latest counts and the
`date_str` label; any failing conversion or column access crashes. -/
def presentView (t : Table) : Rendered :=
  match t.rows with
  | [] => Rendered.noData
  | latest :: rest =>
      let deltas : Option (Int × Int × Int) :=
        match rest with
        | prev :: _ =>
            match valSub (getUnique t.header latest "total_aircraft" |>.getD Val.vna)
                    (getUnique t.header prev "total_aircraft" |>.getD Val.vna),
                  valSub (getUnique t.header latest "enter_adiz" |>.getD Val.vna)
                    (getUnique t.header prev "enter_adiz" |>.getD Val.vna),
                  valSub (getUnique t.header latest "ships" |>.getD Val.vna)
                    (getUnique t.header prev "ships" |>.getD Val.vna) with
            | some a, some b, some c => some (a, b, c)
            | _, _, _ => none
        | [] => some (0, 0, 0)
      match deltas with
      | none => Rendered.crash
      | some (da, db, dc) =>
          match colIdx t.header "date_str",
                (getUnique t.header latest "total_aircraft").bind valToInt,
                (getUnique t.header latest "enter_adiz").bind valToInt,
                (getUnique t.header latest "ships").bind valToInt with
          | some j, some a, some b, some c =>
              Rendered.metrics ⟨showVal (cellAt latest j), a, b, c, da, db, dc⟩
          | _, _, _, _ => Rendered.crash

/-- Whether the rendered output reports all three deltas as zero. -/
def reportsDeltasZero : Rendered → Bool
  | Rendered.metrics m => m.dAircraft = 0 && m.dAdiz = 0 && m.dShips = 0
  | _ => false

/-- The dates found in the `date` column (for `df['date'].min()/.max()`). -/
def colDates (t : Table) : List Date :=
  match colIdx t.header "date" with
  | some i =>
      t.rows.filterMap (fun r =>
        match cellAt r i with
        | Val.vdate dt => some dt
        | _ => none)
  | none => []

/-- Minimum of a list of dates (chronological key order). -/
def minDateList : List Date → Option Date
  | [] => none
  | dt :: ds =>
      match minDateList ds with
      | none => some dt
      | some m => some (if dt.key ≤ m.key then dt else m)

/-- Maximum of a list of dates (chronological key order). -/
def maxDateList : List Date → Option Date
  | [] => none
  | dt :: ds =>
      match maxDateList ds with
      | none => some dt
      | some m => some (if m.key ≤ dt.key then dt else m)

/-- Lines 77-82: the date-range selector bounds.  A nonempty table uses
the observed min and max of the date column (whose absence would raise,
modelled `none`); an empty table falls back to today's date twice. -/
def dateBounds (today : Date) (t : Table) : Option (Date × Date) :=
  if t.rows.isEmpty then some (today, today)
  else
    match minDateList (colDates t), maxDateList (colDates t) with
    | some lo, some hi => some (lo, hi)
    | _, _ => none

/-- How `to_csv` prints one cell: strings verbatim, integers in decimal,
a date column whose entries are all midnight in `YYYY-MM-DD` form,
missing values as the empty field. -/
def csvCell : Val → String
  | Val.vstr s => s
  | Val.vint n => toString n
  | Val.vdate dt => fmtDate dt
  | Val.vna => ""

/-- One comma-separated line. -/
def csvLine (cells : List String) : String := String.intercalate "," cells

/-- `filtered_df.to_csv(index=False)` (line 226): the header line then one
line per row, each terminated by a newline. -/
def toCsv (t : Table) : String :=
  csvLine t.header ++ "\n" ++
    String.join (t.rows.map (fun r => csvLine (r.map csvCell) ++ "\n"))

/-- `.encode('utf-8-sig')`: the byte stream opens with the byte-order
marker, here kept as the BOM code point prefixed to the text. -/
def exportCsv (t : Table) : String := "\uFEFF" ++ toCsv t

/-- The lines of a string (splitting at every newline). -/
def linesOf (s : String) : List String :=
  (splitChar '\n' s.toList).map String.mk

/-- How `pd.read_csv` types one printed field back: empty is missing, an
optionally signed digit string is an integer, anything else a string. -/
def readCell (s : String) : Val :=
  if s = "" then Val.vna
  else
    match splitChar '-' s.toList with
    | [l] =>
        match digitsToNat l with
        | some n => Val.vint (Int.ofNat n)
        | none => Val.vstr s
    | [[], l] =>
        match digitsToNat l with
        | some n => Val.vint (-(Int.ofNat n))
        | none => Val.vstr s
    | _ => Val.vstr s

/-- `read_csv` of `to_csv` output at the table level: the header survives
and every cell goes through print-then-retype. -/
def exportTable (t : Table) : Table :=
  ⟨t.header, t.rows.map (fun r => r.map (fun v => readCell (csvCell v)))⟩

/-- View a scalar read as a parsed date. -/
def asDate : Option Val → Option Date
  | some (Val.vdate dt) => some dt
  | _ => none

/-- View a scalar read as an integer cell. -/
def asInt : Option Val → Option Int
  | some (Val.vint n) => some n
  | _ => none

/-- The canonical Record carried by one row: its date and three counts.
Defined only when each canonical column occurs exactly once and holds a
well-typed cell. -/
def recordOf (header : List String) (r : List Val) : Option (Date × Int × Int × Int) :=
  (asDate (getUnique header r "date")).bind (fun dt =>
    (asInt (getUnique header r "total_aircraft")).bind (fun a =>
      (asInt (getUnique header r "enter_adiz")).bind (fun b =>
        (asInt (getUnique header r "ships")).map (fun c => (dt, a, b, c)))))

/-- The upstream table of the worked example: columns in source order,
two days of counts. -/
def sampleRaw : Table :=
  ⟨["日期", "共機架次", "共艦架次", "進入ADIZ共機架次"],
   [[Val.vstr "2024-01-02", Val.vint 10, Val.vint 1, Val.vint 3],
    [Val.vstr "2024-01-01", Val.vint 8, Val.vint 1, Val.vint 2]]⟩

/-- The coerced date cell a raw row contributes at date-column index `i`. -/
def parsedCell (parse : String → Option Date) (i : Nat) (r : List Val) : Val :=
  toDatetimeCell parse (cellAt r i)

/-- The Dataset loaded from `sampleRaw`. -/
def sampleOut : Table :=
  ⟨["date", "total_aircraft", "ships", "enter_adiz"],
   [[Val.vdate ⟨2024, 1, 2⟩, Val.vint 10, Val.vint 1, Val.vint 3],
    [Val.vdate ⟨2024, 1, 1⟩, Val.vint 8, Val.vint 1, Val.vint 2]]⟩

/-- A small raw table exercising all three row fates: one valid row, one
unparseable date, one out-of-range year. -/
def c1raw : Table :=
  ⟨["日期", "共機架次"],
   [[Val.vstr "2024-01-02", Val.vint 5],
    [Val.vstr "garbage", Val.vint 6],
    [Val.vstr "1900-01-01", Val.vint 7]]⟩

/-- The Dataset the Normalizer produces from `c1raw`. -/
def c1out : Table :=
  ⟨["date", "total_aircraft"], [[Val.vdate ⟨2024, 1, 2⟩, Val.vint 5]]⟩

/-- A raw table with two rows carrying the same date. -/
def c2raw : Table :=
  ⟨["日期", "共機架次"],
   [[Val.vstr "2024-01-01", Val.vint 1],
    [Val.vstr "2024-01-01", Val.vint 2]]⟩

/-- Whether a cell is a parsed date. -/
def isDateCell : Val → Bool
  | Val.vdate _ => true
  | _ => false

/-- Header of the Filtered View built from `sampleOut` (after line 68). -/
def viewHeader : List String := ["date", "total_aircraft", "ships", "enter_adiz", "date_str"]

/-- Newest row of the sample Filtered View. -/
def viewRow0 : List Val :=
  [Val.vdate ⟨2024, 1, 2⟩, Val.vint 10, Val.vint 1, Val.vint 3, Val.vstr "2024-01-02"]

/-- Older row of the sample Filtered View. -/
def viewRow1 : List Val :=
  [Val.vdate ⟨2024, 1, 1⟩, Val.vint 8, Val.vint 1, Val.vint 2, Val.vstr "2024-01-01"]

/-- A raw table whose only row is discarded by the year-range filter,
yielding an empty Dataset. -/
def c10raw : Table :=
  ⟨["日期", "共機架次"], [[Val.vstr "1900-01-01", Val.vint 1]]⟩

/-- A raw table carrying both the misspelled and the corrected ADIZ
label at once. -/
def c7raw : Table :=
  ⟨["日期", "進入AIDZ共機架次", "進入ADIZ共機架次"],
   [[Val.vstr "2024-01-02", Val.vint 5, Val.vint 7]]⟩

/-- A raw table with a parseable date column but no column mapping to
`enter_adiz`. -/
def c8raw : Table :=
  ⟨["日期", "共機架次", "共艦架次"],
   [[Val.vstr "2024-01-02", Val.vint 10, Val.vint 1]]⟩

/-- One row as it stands after export, re-read, and date re-coercion:
every cell printed and retyped, then the date column parsed again. -/
def reimportRow (parse : String → Option Date) (iD : Nat) (r : List Val) : List Val :=
  mapAt iD (toDatetimeCell parse) (r.map (fun v => readCell (csvCell v)))

/-- First row of a Filtered View with a duplicated date (counts differ). -/
def dupRow1 : List Val :=
  [Val.vdate ⟨2024, 1, 1⟩, Val.vint 1, Val.vint 0, Val.vint 0, Val.vstr "2024-01-01"]

/-- Second row of that View: same date as `dupRow1`, different count. -/
def dupRow2 : List Val :=
  [Val.vdate ⟨2024, 1, 1⟩, Val.vint 2, Val.vint 0, Val.vint 0, Val.vstr "2024-01-01"]

/-! ### Sanity checks of the embedding on concrete inputs -/

example : parseIso "2024-01-02" = some ⟨2024, 1, 2⟩ := by decide
example : parseIso "not a date" = none := by decide
example : fmtDate ⟨2024, 1, 2⟩ = "2024-01-02" := by decide

example :
    loadData parseIso sampleRaw =
      some ⟨["date", "total_aircraft", "ships", "enter_adiz"],
        [[Val.vdate ⟨2024, 1, 2⟩, Val.vint 10, Val.vint 1, Val.vint 3],
         [Val.vdate ⟨2024, 1, 1⟩, Val.vint 8, Val.vint 1, Val.vint 2]]⟩ := by decide

example :
    (loadData parseIso sampleRaw).map addDateStr =
      some ⟨["date", "total_aircraft", "ships", "enter_adiz", "date_str"],
        [[Val.vdate ⟨2024, 1, 2⟩, Val.vint 10, Val.vint 1, Val.vint 3, Val.vstr "2024-01-02"],
         [Val.vdate ⟨2024, 1, 1⟩, Val.vint 8, Val.vint 1, Val.vint 2, Val.vstr "2024-01-01"]]⟩ := by
  decide

/-! ### Support lemmas about the row and list operations -/

theorem toDatetimeCell_vna (parse : String → Option Date) :
    toDatetimeCell parse Val.vna = Val.vna := rfl

theorem cellAt_nil (i : Nat) : cellAt [] i = Val.vna := by
  cases i <;> rfl

theorem cellAt_cons_zero (v : Val) (vs : List Val) : cellAt (v :: vs) 0 = v := rfl

theorem cellAt_cons_succ (v : Val) (vs : List Val) (i : Nat) :
    cellAt (v :: vs) (i + 1) = cellAt vs i := rfl

theorem cellAt_mapAt (f : Val → Val) (hf : f Val.vna = Val.vna) :
    ∀ (i : Nat) (r : List Val), cellAt (mapAt i f r) i = f (cellAt r i)
  | _, [] => by simp [mapAt, cellAt_nil, hf]
  | 0, v :: vs => rfl
  | i + 1, v :: vs => by
      simp [mapAt, cellAt_cons_succ]
      exact cellAt_mapAt f hf i vs

theorem cellAt_fillnaRow_vdate :
    ∀ (i : Nat) (r : List Val) (dt : Date),
      cellAt r i = Val.vdate dt → cellAt (fillnaRow r) i = Val.vdate dt
  | i, [], dt, h => by rw [cellAt_nil] at h; exact absurd h (by simp)
  | 0, v :: vs, dt, h => by
      rw [cellAt_cons_zero] at h
      subst h
      simp [fillnaRow, cellAt_cons_zero]
  | i + 1, v :: vs, dt, h => by
      rw [cellAt_cons_succ] at h
      have := cellAt_fillnaRow_vdate i vs dt h
      simpa [fillnaRow, cellAt_cons_succ] using this

theorem rowKey_fillnaRow : ∀ (i : Nat) (r : List Val), rowKey i (fillnaRow r) = rowKey i r
  | _, [] => rfl
  | 0, v :: vs => by cases v <;> rfl
  | i + 1, v :: vs => by
      have := rowKey_fillnaRow i vs
      simpa [fillnaRow, rowKey, cellAt_cons_succ] using this

theorem length_insertDesc {α : Type} (k : α → Nat) (a : α) :
    ∀ l : List α, (insertDesc k a l).length = l.length + 1
  | [] => rfl
  | x :: xs => by
      by_cases h : k x ≤ k a <;>
        simp [insertDesc, h, length_insertDesc k a xs, Nat.add_comm]

theorem length_sortDesc {α : Type} (k : α → Nat) :
    ∀ l : List α, (sortDesc k l).length = l.length
  | [] => rfl
  | a :: l => by
      simp [sortDesc, List.foldr] at *
      rw [show List.foldr (insertDesc k) [] l = sortDesc k l from rfl] at *
      rw [length_insertDesc, length_sortDesc k l]

theorem mem_insertDesc {α : Type} (k : α → Nat) (a x : α) :
    ∀ l : List α, x ∈ insertDesc k a l ↔ x = a ∨ x ∈ l
  | [] => by simp [insertDesc]
  | y :: ys => by
      by_cases h : k y ≤ k a
      · simp [insertDesc, h]
      · simp [insertDesc, h, mem_insertDesc k a x ys]
        tauto

theorem mem_sortDesc {α : Type} (k : α → Nat) (x : α) :
    ∀ l : List α, x ∈ sortDesc k l ↔ x ∈ l
  | [] => Iff.rfl
  | a :: l => by
      rw [show sortDesc k (a :: l) = insertDesc k a (sortDesc k l) from rfl]
      rw [mem_insertDesc, mem_sortDesc k x l]
      simp

theorem pairwise_insertDesc {α : Type} (k : α → Nat) (a : α) :
    ∀ l : List α, l.Pairwise (fun u v => k v ≤ k u) →
      (insertDesc k a l).Pairwise (fun u v => k v ≤ k u)
  | [], _ => by simp [insertDesc]
  | x :: xs, h => by
      rcases List.pairwise_cons.mp h with ⟨hx, hxs⟩
      by_cases hk : k x ≤ k a
      · rw [show insertDesc k a (x :: xs) = a :: x :: xs from if_pos hk]
        refine List.pairwise_cons.mpr ⟨?_, h⟩
        intro y hy
        rcases List.mem_cons.mp hy with rfl | hy
        · exact hk
        · exact Nat.le_trans (hx y hy) hk
      · rw [show insertDesc k a (x :: xs) = x :: insertDesc k a xs from if_neg hk]
        refine List.pairwise_cons.mpr ⟨?_, pairwise_insertDesc k a xs hxs⟩
        intro y hy
        rcases (mem_insertDesc k a y xs).mp hy with rfl | hy
        · exact Nat.le_of_lt (Nat.lt_of_not_le hk)
        · exact hx y hy

theorem pairwise_sortDesc {α : Type} (k : α → Nat) :
    ∀ l : List α, (sortDesc k l).Pairwise (fun u v => k v ≤ k u)
  | [] => List.Pairwise.nil
  | a :: l => by
      rw [show sortDesc k (a :: l) = insertDesc k a (sortDesc k l) from rfl]
      exact pairwise_insertDesc k a (sortDesc k l) (pairwise_sortDesc k l)

theorem sortDesc_eq_self {α : Type} (k : α → Nat) :
    ∀ l : List α, l.Chain' (fun u v => k v ≤ k u) → sortDesc k l = l
  | [], _ => rfl
  | [a], _ => rfl
  | a :: x :: xs, h => by
      rcases List.chain'_cons.mp h with ⟨hax, htail⟩
      rw [show sortDesc k (a :: x :: xs) = insertDesc k a (sortDesc k (x :: xs)) from rfl]
      rw [sortDesc_eq_self k (x :: xs) htail]
      exact if_pos hax

theorem length_eq_countP_add {α : Type} (p : α → Bool) :
    ∀ l : List α, l.length = l.countP p + l.countP (fun a => !(p a))
  | [] => rfl
  | a :: l => by
      by_cases h : p a = true <;>
        simp [List.countP_cons, h, length_eq_countP_add p l] <;> omega

theorem countP_split {α : Type} (p q : α → Bool) :
    ∀ l : List α,
      l.countP p = l.countP (fun a => p a && q a) + l.countP (fun a => p a && !(q a))
  | [] => rfl
  | a :: l => by
      by_cases hp : p a = true <;> by_cases hq : q a = true <;>
        simp [List.countP_cons, hp, hq, countP_split p q l] <;> omega

theorem length_mapAt : ∀ (i : Nat) (f : Val → Val) (r : List Val),
    (mapAt i f r).length = r.length
  | _, _, [] => by simp [mapAt]
  | 0, _, _ :: _ => rfl
  | i + 1, f, _ :: vs => by simp [mapAt, length_mapAt i f vs]

theorem length_fillnaRow (r : List Val) : (fillnaRow r).length = r.length :=
  List.length_map _ _

theorem cellAt_append_len : ∀ (xs : List Val) (v : Val), cellAt (xs ++ [v]) xs.length = v
  | [], v => rfl
  | x :: xs, v => cellAt_append_len xs v

/-- Every row of a successfully loaded Dataset carries a parsed date with
year in [2000, 2050] at the date-column index. -/
theorem loadData_rows_valid
    (parse : String → Option Date) (raw out : Table) (i : Nat)
    (hload : loadData parse raw = some out)
    (hi : colIdx (renameTable raw).header "date" = some i) :
    ∀ r ∈ out.rows, ∃ dt : Date, cellAt r i = Val.vdate dt ∧ 2000 ≤ dt.y ∧ dt.y ≤ 2050 := by
  simp only [loadData, hi] at hload
  rw [Option.some.injEq] at hload
  subst hload
  intro r hr
  rcases List.mem_map.mp hr with ⟨r4, hr4, rfl⟩
  have hr3 := (mem_sortDesc (rowKey i) r4 _).mp hr4
  rcases List.mem_filter.mp hr3 with ⟨_, hp2⟩
  cases hcell : cellAt r4 i with
  | vdate dt =>
      refine ⟨dt, cellAt_fillnaRow_vdate i r4 dt hcell, ?_⟩
      rw [hcell] at hp2
      simpa [yearOk] using hp2
  | vstr sv => rw [hcell] at hp2; simp [yearOk] at hp2
  | vint n => rw [hcell] at hp2; simp [yearOk] at hp2
  | vna => rw [hcell] at hp2; simp [yearOk] at hp2

/-- Every row of a loaded Dataset is the fillna-image of a coerced
original raw row. -/
theorem loadData_rows_shape
    (parse : String → Option Date) (raw out : Table) (i : Nat)
    (hload : loadData parse raw = some out)
    (hi : colIdx (renameTable raw).header "date" = some i) :
    ∀ r ∈ out.rows, ∃ r0 ∈ raw.rows, r = fillnaRow (mapAt i (toDatetimeCell parse) r0) := by
  simp only [loadData, hi] at hload
  rw [Option.some.injEq] at hload
  subst hload
  intro r hr
  rcases List.mem_map.mp hr with ⟨r4, hr4, rfl⟩
  have hr3 := (mem_sortDesc (rowKey i) r4 _).mp hr4
  have hr2 := (List.mem_filter.mp hr3).1
  have hr1 := (List.mem_filter.mp hr2).1
  rcases List.mem_map.mp hr1 with ⟨r0, hr0, rfl⟩
  exact ⟨r0, hr0, rfl⟩

/-! ### Claim C1 -/

/-- C1: for every raw table that loads successfully, the Dataset contains
only rows whose date parsed and whose year lies in [2000, 2050], and its
size is the number of input rows minus the unparseable-date rows minus
the out-of-range-year rows. -/
theorem C1_dataset_exactly_valid_rows
    (parse : String → Option Date) (raw out : Table) (i : Nat)
    (hload : loadData parse raw = some out)
    (hi : colIdx (renameTable raw).header "date" = some i) :
    (∀ r ∈ out.rows, ∃ dt : Date, cellAt r i = Val.vdate dt ∧ 2000 ≤ dt.y ∧ dt.y ≤ 2050) ∧
    out.rows.length
        + (raw.rows.countP fun r => !(notnaVal (parsedCell parse i r)))
        + (raw.rows.countP fun r =>
            notnaVal (parsedCell parse i r) && !(yearOk (parsedCell parse i r)))
      = raw.rows.length ∧
    out.rows.length =
      raw.rows.length
        - (raw.rows.countP fun r => !(notnaVal (parsedCell parse i r)))
        - (raw.rows.countP fun r =>
            notnaVal (parsedCell parse i r) && !(yearOk (parsedCell parse i r))) := by
  refine ⟨loadData_rows_valid parse raw out i hload hi, ?_⟩
  simp only [loadData, hi] at hload
  rw [Option.some.injEq] at hload
  subst hload
  · have hA :
        ((sortDesc (rowKey i)
            ((((renameTable raw).rows.map (mapAt i (toDatetimeCell parse))).filter
                (fun r => notnaVal (cellAt r i))).filter
                (fun r => yearOk (cellAt r i)))).map fillnaRow).length
          = raw.rows.countP fun r =>
              notnaVal (parsedCell parse i r) && yearOk (parsedCell parse i r) := by
      rw [List.length_map, length_sortDesc, List.filter_filter,
        ← List.countP_eq_length_filter, List.countP_map]
      refine List.countP_congr ?_
      intro r _
      simp only [Function.comp_apply]
      rw [cellAt_mapAt (toDatetimeCell parse) rfl i r]
      rw [Bool.and_comm]
      rfl
    rw [hA]
    have h1 := length_eq_countP_add (fun r => notnaVal (parsedCell parse i r)) raw.rows
    have h2 := countP_split (fun r => notnaVal (parsedCell parse i r))
      (fun r => yearOk (parsedCell parse i r)) raw.rows
    omega

theorem C1_dataset_exactly_valid_rows_witness :
    loadData parseIso c1raw = some c1out ∧
    colIdx (renameTable c1raw).header "date" = some 0 ∧
    ((∀ r ∈ c1out.rows, ∃ dt : Date, cellAt r 0 = Val.vdate dt ∧ 2000 ≤ dt.y ∧ dt.y ≤ 2050) ∧
      c1out.rows.length
          + (c1raw.rows.countP fun r => !(notnaVal (parsedCell parseIso 0 r)))
          + (c1raw.rows.countP fun r =>
              notnaVal (parsedCell parseIso 0 r) && !(yearOk (parsedCell parseIso 0 r)))
        = c1raw.rows.length ∧
      c1out.rows.length =
        c1raw.rows.length
          - (c1raw.rows.countP fun r => !(notnaVal (parsedCell parseIso 0 r)))
          - (c1raw.rows.countP fun r =>
              notnaVal (parsedCell parseIso 0 r) && !(yearOk (parsedCell parseIso 0 r)))) :=
  ⟨by decide, by decide,
    C1_dataset_exactly_valid_rows parseIso c1raw c1out 0 (by decide) (by decide)⟩

/-! ### Claim C2 -/

/-- C2 (amended): every Dataset produced by the Normalizer is sorted
descending by date — each adjacent pair of rows has a non-increasing date
key.  (Uniqueness of dates is not guaranteed; see the counterexample.) -/
theorem C2_sorted_adjacent_pairs
    (parse : String → Option Date) (raw out : Table) (i : Nat)
    (hload : loadData parse raw = some out)
    (hi : colIdx (renameTable raw).header "date" = some i) :
    List.Chain' (fun a b => rowKey i b ≤ rowKey i a) out.rows := by
  simp only [loadData, hi] at hload
  rw [Option.some.injEq] at hload
  subst hload
  rw [List.chain'_map]
  have hc := (pairwise_sortDesc (rowKey i)
    ((((renameTable raw).rows.map (mapAt i (toDatetimeCell parse))).filter
        (fun r => notnaVal (cellAt r i))).filter
        (fun r => yearOk (cellAt r i)))).chain'
  refine hc.imp ?_
  intro a b h
  rw [rowKey_fillnaRow, rowKey_fillnaRow]
  exact h

/-- C2 counterexample: the Normalizer does not deduplicate dates — from an
input with two rows dated 2024-01-01 the Dataset keeps both Records, so
two Records can share a date, refuting the strictness/uniqueness part. -/
theorem C2_counterexample_duplicate_dates :
    (loadData parseIso c2raw).map (fun t => t.rows.map (fun r => cellAt r 0)) =
      some [Val.vdate ⟨2024, 1, 1⟩, Val.vdate ⟨2024, 1, 1⟩] := by decide

theorem C2_sorted_adjacent_pairs_witness :
    loadData parseIso sampleRaw = some sampleOut ∧
    List.Chain' (fun a b => rowKey 0 b ≤ rowKey 0 a) sampleOut.rows :=
  ⟨by decide,
    C2_sorted_adjacent_pairs parseIso sampleRaw sampleOut 0 (by decide) (by decide)⟩

/-! ### Claim C5 -/

theorem minDateList_cons_isSome (x : Date) (xs : List Date) :
    (minDateList (x :: xs)).isSome := by
  simp only [minDateList]
  cases minDateList xs <;> simp

theorem maxDateList_cons_isSome (x : Date) (xs : List Date) :
    (maxDateList (x :: xs)).isSome := by
  simp only [maxDateList]
  cases maxDateList xs <;> simp

theorem minDateList_le :
    ∀ (ds : List Date) (lo : Date), minDateList ds = some lo →
      ∀ d ∈ ds, lo.key ≤ d.key
  | [], lo, h => by simp [minDateList] at h
  | dt :: ds, lo, h => by
      intro d hd
      cases hm : minDateList ds with
      | none =>
          cases ds with
          | nil =>
              simp only [minDateList] at h
              rcases List.mem_singleton.mp hd with rfl
              rw [Option.some.injEq] at h
              subst h
              exact Nat.le_refl _
          | cons x xs =>
              have := minDateList_cons_isSome x xs
              rw [hm] at this
              simp at this
      | some m =>
          simp only [minDateList, hm, Option.some.injEq] at h
          subst h
          rcases List.mem_cons.mp hd with rfl | hd
          · by_cases hk : d.key ≤ m.key
            · simp [hk]
            · simp only [if_neg hk]
              exact Nat.le_of_lt (Nat.lt_of_not_le hk)
          · have hrec := minDateList_le ds m hm d hd
            by_cases hk : dt.key ≤ m.key
            · simp only [if_pos hk]
              exact Nat.le_trans hk hrec
            · simp only [if_neg hk]
              exact hrec

theorem maxDateList_ge :
    ∀ (ds : List Date) (up : Date), maxDateList ds = some up →
      ∀ d ∈ ds, d.key ≤ up.key
  | [], up, h => by simp [maxDateList] at h
  | dt :: ds, up, h => by
      intro d hd
      cases hm : maxDateList ds with
      | none =>
          cases ds with
          | nil =>
              simp only [maxDateList] at h
              rcases List.mem_singleton.mp hd with rfl
              rw [Option.some.injEq] at h
              subst h
              exact Nat.le_refl _
          | cons x xs =>
              have := maxDateList_cons_isSome x xs
              rw [hm] at this
              simp at this
      | some m =>
          simp only [maxDateList, hm, Option.some.injEq] at h
          subst h
          rcases List.mem_cons.mp hd with rfl | hd
          · by_cases hk : m.key ≤ d.key
            · simp [hk]
            · simp only [if_neg hk]
              exact Nat.le_of_lt (Nat.lt_of_not_le hk)
          · have hrec := maxDateList_ge ds m hm d hd
            by_cases hk : m.key ≤ dt.key
            · simp only [if_pos hk]
              exact Nat.le_trans hrec hk
            · simp only [if_neg hk]
              exact hrec

theorem mem_colDates (t : Table) (i : Nat)
    (hcol : colIdx t.header "date" = some i) (r : List Val) (hr : r ∈ t.rows)
    (dt : Date) (hc : cellAt r i = Val.vdate dt) : dt ∈ colDates t := by
  simp only [colDates, hcol]
  exact List.mem_filterMap.mpr ⟨r, hr, by rw [hc]⟩

/-- C5: filtering by the Dataset's own observed [min, max] is the
identity, and in general the Filtered View holds exactly the rows whose
date lies in the inclusive range, as a sublist (order preserved). -/
theorem C5_filter_identity_and_semantics
    (t : Table) (i : Nat) (lo up : Date)
    (hcol : colIdx t.header "date" = some i)
    (hw : ∀ r ∈ t.rows, isDateCell (cellAt r i) = true)
    (hmin : minDateList (colDates t) = some lo)
    (hmax : maxDateList (colDates t) = some up) :
    filterView lo up t = t ∧
    (∀ s e : Date, (filterView s e t).rows.Sublist t.rows) ∧
    (∀ s e : Date, ∀ r, r ∈ (filterView s e t).rows ↔
      r ∈ t.rows ∧ inRangeVal s e (cellAt r i) = true) := by
  refine ⟨?_, ?_, ?_⟩
  · simp only [filterView, hcol]
    have hall : t.rows.filter (fun r => inRangeVal lo up (cellAt r i)) = t.rows := by
      rw [List.filter_eq_self]
      intro r hr
      have hcell := hw r hr
      cases hdt : cellAt r i with
      | vdate dt =>
          have hmem := mem_colDates t i hcol r hr dt hdt
          have h1 := minDateList_le (colDates t) lo hmin dt hmem
          have h2 := maxDateList_ge (colDates t) up hmax dt hmem
          simp [inRangeVal, h1, h2]
      | vstr sv => rw [hdt] at hcell; simp [isDateCell] at hcell
      | vint n => rw [hdt] at hcell; simp [isDateCell] at hcell
      | vna => rw [hdt] at hcell; simp [isDateCell] at hcell
    rw [hall]
  · intro s e
    simp only [filterView, hcol]
    exact List.filter_sublist _
  · intro s e r
    simp only [filterView, hcol]
    exact List.mem_filter

theorem C5_filter_identity_and_semantics_witness :
    minDateList (colDates sampleOut) = some ⟨2024, 1, 1⟩ ∧
    maxDateList (colDates sampleOut) = some ⟨2024, 1, 2⟩ ∧
    (filterView ⟨2024, 1, 1⟩ ⟨2024, 1, 2⟩ sampleOut = sampleOut ∧
      (∀ s e : Date, (filterView s e sampleOut).rows.Sublist sampleOut.rows) ∧
      (∀ s e : Date, ∀ r, r ∈ (filterView s e sampleOut).rows ↔
        r ∈ sampleOut.rows ∧ inRangeVal s e (cellAt r 0) = true)) :=
  ⟨by decide, by decide,
    C5_filter_identity_and_semantics sampleOut 0 ⟨2024, 1, 1⟩ ⟨2024, 1, 2⟩
      (by decide) (by decide) (by decide) (by decide)⟩

/-! ### Claim C4 -/

/-- C4: on a non-empty Filtered View whose canonical columns are unique
and integer-valued, the Presenter reports each delta as the first row's
count minus the second row's count when a second row exists, and as 0
when the View has exactly one row. -/
theorem C4_presenter_deltas :
    (∀ (hd : List String) (j : Nat) (r0 r1 : List Val) (rest : List (List Val))
        (a0 b0 c0 a1 b1 c1 : Int),
      colIdx hd "date_str" = some j →
      getUnique hd r0 "total_aircraft" = some (Val.vint a0) →
      getUnique hd r0 "enter_adiz" = some (Val.vint b0) →
      getUnique hd r0 "ships" = some (Val.vint c0) →
      getUnique hd r1 "total_aircraft" = some (Val.vint a1) →
      getUnique hd r1 "enter_adiz" = some (Val.vint b1) →
      getUnique hd r1 "ships" = some (Val.vint c1) →
      presentView ⟨hd, r0 :: r1 :: rest⟩ =
        Rendered.metrics ⟨showVal (cellAt r0 j), a0, b0, c0, a0 - a1, b0 - b1, c0 - c1⟩) ∧
    (∀ (hd : List String) (j : Nat) (r0 : List Val) (a0 b0 c0 : Int),
      colIdx hd "date_str" = some j →
      getUnique hd r0 "total_aircraft" = some (Val.vint a0) →
      getUnique hd r0 "enter_adiz" = some (Val.vint b0) →
      getUnique hd r0 "ships" = some (Val.vint c0) →
      presentView ⟨hd, [r0]⟩ =
        Rendered.metrics ⟨showVal (cellAt r0 j), a0, b0, c0, 0, 0, 0⟩) := by
  constructor
  · intro hd j r0 r1 rest a0 b0 c0 a1 b1 c1 hj h1 h2 h3 h4 h5 h6
    simp only [presentView, h1, h2, h3, h4, h5, h6, hj, Option.getD_some,
      valSub, valToInt, Option.some_bind]
  · intro hd j r0 a0 b0 c0 hj h1 h2 h3
    simp only [presentView, h1, h2, h3, hj, Option.getD_some,
      valSub, valToInt, Option.some_bind]

theorem C4_presenter_deltas_witness :
    addDateStr sampleOut = ⟨viewHeader, [viewRow0, viewRow1]⟩ ∧
    presentView ⟨viewHeader, [viewRow0, viewRow1]⟩ =
      Rendered.metrics ⟨"2024-01-02", 10, 3, 1, 2, 1, 0⟩ ∧
    presentView ⟨viewHeader, [viewRow1]⟩ =
      Rendered.metrics ⟨"2024-01-01", 8, 2, 1, 0, 0, 0⟩ := by
  refine ⟨by decide, ?_, ?_⟩
  · rw [C4_presenter_deltas.1 viewHeader 4 viewRow0 viewRow1 [] 10 3 1 8 2 1
      (by decide) (by decide) (by decide) (by decide) (by decide) (by decide) (by decide)]
    decide
  · rw [C4_presenter_deltas.2 viewHeader 4 viewRow1 8 2 1
      (by decide) (by decide) (by decide) (by decide)]
    decide

/-! ### Claim C9 -/

/-- C9 (amended): a range selection producing an empty Filtered View
raises no error: the app renders the explicit no-data warning branch, so
no metrics block and no deltas (zero or otherwise) are reported. -/
theorem C9_empty_view_no_data
    (t : Table) (s e : Date)
    (h : (filterView s e t).rows = []) :
    presentView (filterView s e t) = Rendered.noData ∧
    reportsDeltasZero (presentView (filterView s e t)) = false := by
  have hp : presentView (filterView s e t) = Rendered.noData := by
    simp only [presentView, h]
  exact ⟨hp, by rw [hp]; rfl⟩

/-- C9 counterexample: for the range [2030-01-01, 2030-12-31], which
misses every sample Record, the View is empty and the render is the
no-data warning; in particular nothing reports the three deltas as zero,
refuting the claim that the Presenter reports all deltas as zero. -/
theorem C9_counterexample_no_deltas_reported :
    (filterView ⟨2030, 1, 1⟩ ⟨2030, 12, 31⟩ ⟨viewHeader, [viewRow0, viewRow1]⟩).rows = [] ∧
    presentView (filterView ⟨2030, 1, 1⟩ ⟨2030, 12, 31⟩ ⟨viewHeader, [viewRow0, viewRow1]⟩) =
      Rendered.noData ∧
    reportsDeltasZero
      (presentView (filterView ⟨2030, 1, 1⟩ ⟨2030, 12, 31⟩ ⟨viewHeader, [viewRow0, viewRow1]⟩)) =
      false := by decide

theorem C9_empty_view_no_data_witness :
    (filterView ⟨2031, 5, 5⟩ ⟨2031, 6, 6⟩ sampleOut).rows = [] ∧
    (presentView (filterView ⟨2031, 5, 5⟩ ⟨2031, 6, 6⟩ sampleOut) = Rendered.noData ∧
      reportsDeltasZero (presentView (filterView ⟨2031, 5, 5⟩ ⟨2031, 6, 6⟩ sampleOut)) = false) :=
  ⟨by decide, C9_empty_view_no_data sampleOut ⟨2031, 5, 5⟩ ⟨2031, 6, 6⟩ (by decide)⟩

/-! ### Claim C10 -/

/-- C10: when the loaded Dataset is empty, both date-selector bounds
default to today's date, and for every selected range the app renders the
no-data warning instead of indexing into the empty Dataset. -/
theorem C10_empty_dataset_defaults
    (parse : String → Option Date) (raw out : Table) (today : Date)
    (hload : loadData parse raw = some out) (hempty : out.rows = []) :
    dateBounds today out = some (today, today) ∧
    ∀ s e : Date, presentView (filterView s e (addDateStr out)) = Rendered.noData := by
  constructor
  · simp [dateBounds, hempty]
  · intro s e
    have h1 : (addDateStr out).rows = [] := by
      unfold addDateStr
      cases colIdx out.header "date" <;> simp [hempty]
    have h2 : (filterView s e (addDateStr out)).rows = [] := by
      unfold filterView
      cases colIdx (addDateStr out).header "date" <;> simp [h1]
    simp only [presentView, h2]

theorem C10_empty_dataset_defaults_witness :
    loadData parseIso c10raw = some ⟨["date", "total_aircraft"], []⟩ ∧
    (dateBounds ⟨2026, 10, 12⟩ ⟨["date", "total_aircraft"], []⟩ =
        some (⟨2026, 10, 12⟩, ⟨2026, 10, 12⟩) ∧
      ∀ s e : Date,
        presentView (filterView s e (addDateStr ⟨["date", "total_aircraft"], []⟩)) =
          Rendered.noData) :=
  ⟨by decide,
    C10_empty_dataset_defaults parseIso c10raw ⟨["date", "total_aircraft"], []⟩
      ⟨2026, 10, 12⟩ (by decide) (by decide)⟩

/-! ### Claim C7 -/

/-- C7 counterexample: with both ADIZ labels present, the rename keeps
both columns (now identically named `enter_adiz`), so the Dataset has two
such columns and a scalar read of the field yields no single value — the
later (corrected-spelling) column does not deterministically supply the
`enter_adiz` value. -/
theorem C7_counterexample_both_columns_kept :
    (loadData parseIso c7raw).map (fun t => t.header.count "enter_adiz") = some 2 ∧
    (loadData parseIso c7raw).map
        (fun t => t.rows.map (fun r => getUnique t.header r "enter_adiz")) =
      some [none] := by decide

/-- C7 (amended): both the misspelled and the corrected ADIZ labels are
renamed to the canonical `enter_adiz` field and the load succeeds; when
both columns are present in one raw table, both survive as two columns
named `enter_adiz`, each retaining its own values (no later-wins
overwrite). -/
theorem C7_both_labels_map_to_enter_adiz :
    rn "進入AIDZ共機架次" = "enter_adiz" ∧
    rn "進入ADIZ共機架次" = "enter_adiz" ∧
    loadData parseIso c7raw =
      some ⟨["date", "enter_adiz", "enter_adiz"],
        [[Val.vdate ⟨2024, 1, 2⟩, Val.vint 5, Val.vint 7]]⟩ := by decide

/-! ### Claim C8 -/

/-- C8 counterexample: loading a table without any ADIZ column succeeds,
but the Dataset simply has no `enter_adiz` column, and reading the field
on the surviving row yields nothing — not the value 0 the claim
promises for every row. -/
theorem C8_counterexample_absent_column_not_zeroed :
    (loadData parseIso c8raw).map (fun t => t.header) =
      some ["date", "total_aircraft", "ships"] ∧
    (loadData parseIso c8raw).map
        (fun t => t.rows.map (fun r => getUnique t.header r "enter_adiz")) =
      some [none] ∧
    (loadData parseIso c8raw).map
        (fun t => t.rows.map (fun r => getUnique t.header r "enter_adiz")) ≠
      some [some (Val.vint 0)] := by decide

/-- C8 (amended): when a recognized numeric column is absent from the raw
table (and a date column is present), the load still succeeds without
error, but the canonical field stays absent from the Dataset — no
zero-filled column is created; only missing cells of present columns are
filled with 0. -/
theorem C8_absent_column_load_succeeds
    (parse : String → Option Date) (raw : Table) (i : Nat) (name : String)
    (hdate : colIdx (renameTable raw).header "date" = some i)
    (habs : name ∉ (renameTable raw).header) :
    ∃ out, loadData parse raw = some out ∧
      out.header = (renameTable raw).header ∧ name ∉ out.header := by
  simp only [loadData, hdate]
  exact ⟨_, rfl, rfl, habs⟩

theorem C8_absent_column_load_succeeds_witness :
    colIdx (renameTable c8raw).header "date" = some 0 ∧
    "enter_adiz" ∉ (renameTable c8raw).header ∧
    (∃ out, loadData parseIso c8raw = some out ∧
      out.header = (renameTable c8raw).header ∧ "enter_adiz" ∉ out.header) :=
  ⟨by decide, by decide,
    C8_absent_column_load_succeeds parseIso c8raw 0 "enter_adiz" (by decide) (by decide)⟩

/-! ### Claim C3 -/

/-- C3 counterexample: the export of a real Filtered View serializes all
five columns of the view (the raw `date` column included), with header
line `date,total_aircraft,ships,enter_adiz,date_str` — not the claimed
four-column header `date_str,total_aircraft,enter_adiz,ships`. -/
theorem C3_counterexample_export_has_extra_columns :
    (loadData parseIso sampleRaw).map
        (fun out => linesOf (exportCsv (filterView ⟨2024, 1, 1⟩ ⟨2024, 1, 2⟩ (addDateStr out)))) =
      some ["﻿date,total_aircraft,ships,enter_adiz,date_str",
            "2024-01-02,10,1,3,2024-01-02",
            "2024-01-01,8,1,2,2024-01-01",
            ""] ∧
    (linesOf (exportCsv (filterView ⟨2024, 1, 1⟩ ⟨2024, 1, 2⟩ (addDateStr sampleOut)))).headD ""
      ≠ "﻿" ++ "date_str,total_aircraft,enter_adiz,ships" := by decide

/-- C3 (amended): the export is a pure transform producing comma-separated
text opened by a byte-order marker, whose header row lists the View's
full column set `date,total_aircraft,ships,enter_adiz,date_str` (the raw
`date` column and `date_str` included), with one serialized line per
Record of the View, and the `date_str` field formatted `YYYY-MM-DD`. -/
theorem C3_export_serializes_view
    (parse : String → Option Date) (raw out : Table) (s e : Date)
    (hhdr : raw.header = ["日期", "共機架次", "共艦架次", "進入ADIZ共機架次"])
    (hrect : ∀ r ∈ raw.rows, r.length = 4)
    (hload : loadData parse raw = some out) :
    (filterView s e (addDateStr out)).header =
      ["date", "total_aircraft", "ships", "enter_adiz", "date_str"] ∧
    exportCsv (filterView s e (addDateStr out)) =
      "﻿" ++ "date,total_aircraft,ships,enter_adiz,date_str" ++ "\n" ++
        String.join ((filterView s e (addDateStr out)).rows.map
          (fun r => csvLine (r.map csvCell) ++ "\n")) ∧
    ∀ r ∈ (filterView s e (addDateStr out)).rows, ∃ dt : Date,
      cellAt r 4 = Val.vstr (fmtDate dt) ∧ csvCell (cellAt r 4) = fmtDate dt := by
  have hrn : (renameTable raw).header = ["date", "total_aircraft", "ships", "enter_adiz"] := by
    show raw.header.map rn = _
    rw [hhdr]
    decide
  have hcol : colIdx (renameTable raw).header "date" = some 0 := by rw [hrn]; decide
  have hout_hdr : out.header = ["date", "total_aircraft", "ships", "enter_adiz"] := by
    simp only [loadData, hcol] at hload
    rw [Option.some.injEq] at hload
    rw [← hload]
    exact hrn
  have hview_col : colIdx (out.header ++ ["date_str"]) "date" = some 0 := by
    rw [hout_hdr]; decide
  have hadd_col : colIdx out.header "date" = some 0 := by rw [hout_hdr]; decide
  have hview : filterView s e (addDateStr out) =
      ⟨out.header ++ ["date_str"],
        (out.rows.map (fun r => r ++ [dateStrVal (cellAt r 0)])).filter
          (fun r => inRangeVal s e (cellAt r 0))⟩ := by
    simp only [addDateStr, hadd_col, filterView, hview_col]
  have hrow : ∀ r ∈ (filterView s e (addDateStr out)).rows, ∃ dt : Date,
      cellAt r 4 = Val.vstr (fmtDate dt) ∧ csvCell (cellAt r 4) = fmtDate dt := by
    intro r hr
    rw [hview] at hr
    have hr2 := (List.mem_filter.mp hr).1
    rcases List.mem_map.mp hr2 with ⟨ro, hro, rfl⟩
    rcases loadData_rows_valid parse raw out 0 hload hcol ro hro with ⟨dt, hdt, _, _⟩
    rcases loadData_rows_shape parse raw out 0 hload hcol ro hro with ⟨r0, hr0, hshape⟩
    have hlen : ro.length = 4 := by
      rw [hshape, length_fillnaRow, length_mapAt]
      exact hrect r0 hr0
    have hc : cellAt (ro ++ [dateStrVal (cellAt ro 0)]) 4 = Val.vstr (fmtDate dt) := by
      rw [hdt]
      show cellAt (ro ++ [Val.vstr (fmtDate dt)]) 4 = Val.vstr (fmtDate dt)
      rw [show (4 : Nat) = ro.length from hlen.symm]
      exact cellAt_append_len ro _
    exact ⟨dt, hc, by rw [hc]; rfl⟩
  refine ⟨?_, ?_, hrow⟩
  · rw [hview]
    show out.header ++ ["date_str"] = _
    rw [hout_hdr]
    rfl
  · rw [hview]
    simp only [exportCsv, toCsv]
    rw [hout_hdr]
    rw [show csvLine (["date", "total_aircraft", "ships", "enter_adiz"] ++ ["date_str"]) =
        "date,total_aircraft,ships,enter_adiz,date_str" from by decide]
    simp only [← String.append_assoc]

theorem C3_export_serializes_view_witness :
    sampleRaw.header = ["日期", "共機架次", "共艦架次", "進入ADIZ共機架次"] ∧
    (∀ r ∈ sampleRaw.rows, r.length = 4) ∧
    loadData parseIso sampleRaw = some sampleOut ∧
    ((filterView ⟨2024, 1, 1⟩ ⟨2024, 1, 2⟩ (addDateStr sampleOut)).header =
        ["date", "total_aircraft", "ships", "enter_adiz", "date_str"] ∧
      exportCsv (filterView ⟨2024, 1, 1⟩ ⟨2024, 1, 2⟩ (addDateStr sampleOut)) =
        "﻿" ++ "date,total_aircraft,ships,enter_adiz,date_str" ++ "\n" ++
          String.join ((filterView ⟨2024, 1, 1⟩ ⟨2024, 1, 2⟩ (addDateStr sampleOut)).rows.map
            (fun r => csvLine (r.map csvCell) ++ "\n")) ∧
      ∀ r ∈ (filterView ⟨2024, 1, 1⟩ ⟨2024, 1, 2⟩ (addDateStr sampleOut)).rows, ∃ dt : Date,
        cellAt r 4 = Val.vstr (fmtDate dt) ∧ csvCell (cellAt r 4) = fmtDate dt) :=
  ⟨by decide, by decide, by decide,
    C3_export_serializes_view parseIso sampleRaw sampleOut ⟨2024, 1, 1⟩ ⟨2024, 1, 2⟩
      (by decide) (by decide) (by decide)⟩

/-! ### Claim C6 -/

theorem cellAt_map_of_ne (g : Val → Val) :
    ∀ (i : Nat) (r : List Val), cellAt r i ≠ Val.vna → cellAt (r.map g) i = g (cellAt r i)
  | i, [], h => ((h (cellAt_nil i)).elim)
  | 0, _ :: _, _ => rfl
  | i + 1, _ :: vs, h => by
      simpa [cellAt_cons_succ] using cellAt_map_of_ne g i vs h

theorem cellAt_mapAt_ne :
    ∀ (j i : Nat) (f : Val → Val) (r : List Val), i ≠ j →
      cellAt (mapAt j f r) i = cellAt r i
  | _, _, _, [], _ => by simp [mapAt]
  | 0, i, f, v :: vs, h => by
      cases i with
      | zero => exact absurd rfl h
      | succ i' => rfl
  | j + 1, i, f, v :: vs, h => by
      cases i with
      | zero => rfl
      | succ i' =>
          simpa [mapAt, cellAt_cons_succ] using
            cellAt_mapAt_ne j i' f vs (fun e => h (by rw [e]))

theorem cellAt_fillnaRow_ne_na :
    ∀ (i : Nat) (r : List Val), cellAt r i ≠ Val.vna →
      cellAt (fillnaRow r) i = cellAt r i
  | i, [], h => ((h (cellAt_nil i)).elim)
  | 0, v :: vs, h => by
      have hv : ¬v = Val.vna := h
      simp [fillnaRow, cellAt_cons_zero, if_neg hv]
  | i + 1, _ :: vs, h => by
      simpa [fillnaRow, cellAt_cons_succ] using cellAt_fillnaRow_ne_na i vs h

theorem colIdx_getD :
    ∀ (hdr : List String) (name : String) (i : Nat),
      colIdx hdr name = some i → hdr.getD i "" = name
  | [], _, _, h => by simp [colIdx] at h
  | hd :: t, name, i, h => by
      by_cases he : hd = name
      · simp only [colIdx, if_pos he] at h
        rw [Option.some.injEq] at h
        subst h
        simpa using he
      · simp only [colIdx, if_neg he] at h
        rcases Option.map_eq_some'.mp h with ⟨j, hj, rfl⟩
        simpa using colIdx_getD t name j hj

theorem colIdx_inj (hdr : List String) (n1 n2 : String) (i : Nat)
    (h1 : colIdx hdr n1 = some i) (h2 : colIdx hdr n2 = some i) : n1 = n2 := by
  rw [← colIdx_getD hdr n1 i h1, ← colIdx_getD hdr n2 i h2]

theorem getUnique_some_parts (hdr : List String) (r : List Val) (name : String) (v : Val)
    (h : getUnique hdr r name = some v) :
    hdr.count name = 1 ∧ ∃ i, colIdx hdr name = some i ∧ cellAt r i = v := by
  by_cases hc : hdr.count name = 1
  · refine ⟨hc, ?_⟩
    unfold getUnique at h
    rw [if_pos hc] at h
    cases hcol : colIdx hdr name with
    | none => rw [hcol] at h; cases h
    | some i =>
        rw [hcol] at h
        rw [Option.some.injEq] at h
        exact ⟨i, rfl, h⟩
  · unfold getUnique at h
    rw [if_neg hc] at h
    cases h

theorem getUnique_of (hdr : List String) (r : List Val) (name : String) (i : Nat) (v : Val)
    (hc : hdr.count name = 1) (hcol : colIdx hdr name = some i) (hv : cellAt r i = v) :
    getUnique hdr r name = some v := by
  unfold getUnique
  rw [if_pos hc, hcol]
  show some (cellAt r i) = some v
  rw [hv]

theorem asDate_eq_some (o : Option Val) (dt : Date) :
    asDate o = some dt ↔ o = some (Val.vdate dt) := by
  cases o with
  | none => simp [asDate]
  | some v => cases v <;> simp [asDate]

theorem asInt_eq_some (o : Option Val) (n : Int) :
    asInt o = some n ↔ o = some (Val.vint n) := by
  cases o with
  | none => simp [asInt]
  | some v => cases v <;> simp [asInt]

theorem recordOf_some_parts (hdr : List String) (r : List Val) (dt : Date) (a b c : Int)
    (h : recordOf hdr r = some (dt, a, b, c)) :
    getUnique hdr r "date" = some (Val.vdate dt) ∧
    getUnique hdr r "total_aircraft" = some (Val.vint a) ∧
    getUnique hdr r "enter_adiz" = some (Val.vint b) ∧
    getUnique hdr r "ships" = some (Val.vint c) := by
  unfold recordOf at h
  rcases Option.bind_eq_some.mp h with ⟨dt', hdt, h⟩
  rcases Option.bind_eq_some.mp h with ⟨a', ha, h⟩
  rcases Option.bind_eq_some.mp h with ⟨b', hb, h⟩
  rcases Option.map_eq_some'.mp h with ⟨c', hc, heq⟩
  obtain ⟨rfl, rfl, rfl, rfl⟩ : dt' = dt ∧ a' = a ∧ b' = b ∧ c' = c := by
    simpa [Prod.ext_iff] using heq
  exact ⟨(asDate_eq_some _ _).mp hdt, (asInt_eq_some _ _).mp ha,
    (asInt_eq_some _ _).mp hb, (asInt_eq_some _ _).mp hc⟩

theorem recordOf_of_parts (hdr : List String) (r : List Val) (dt : Date) (a b c : Int)
    (h1 : getUnique hdr r "date" = some (Val.vdate dt))
    (h2 : getUnique hdr r "total_aircraft" = some (Val.vint a))
    (h3 : getUnique hdr r "enter_adiz" = some (Val.vint b))
    (h4 : getUnique hdr r "ships" = some (Val.vint c)) :
    recordOf hdr r = some (dt, a, b, c) := by
  unfold recordOf
  rw [h1, h2, h3, h4]
  rfl

/-- Re-exported canonical cells survive the print/retype/re-coerce trip:
the date cell comes back as the same date and the three counts as the
same integers, and the whole Record is readable again after `fillna`. -/
theorem reimport_row_facts
    (parse : String → Option Date) (hdr : List String) (iD : Nat)
    (hD : colIdx hdr "date" = some iD)
    (r : List Val) (dt : Date) (a b c : Int)
    (hro : recordOf hdr r = some (dt, a, b, c))
    (hpd : toDatetimeCell parse (readCell (csvCell (Val.vdate dt))) = Val.vdate dt)
    (hra : readCell (csvCell (Val.vint a)) = Val.vint a)
    (hrb : readCell (csvCell (Val.vint b)) = Val.vint b)
    (hrc : readCell (csvCell (Val.vint c)) = Val.vint c) :
    cellAt (reimportRow parse iD r) iD = Val.vdate dt ∧
    rowKey iD r = dt.key ∧
    recordOf hdr (fillnaRow (reimportRow parse iD r)) = some (dt, a, b, c) := by
  rcases recordOf_some_parts hdr r dt a b c hro with ⟨g1, g2, g3, g4⟩
  rcases getUnique_some_parts _ _ _ _ g1 with ⟨hcD, iD', hiD', hvD⟩
  have hIdEq : iD' = iD := by
    rw [hD] at hiD'
    exact ((Option.some.injEq _ _).mp hiD').symm
  subst hIdEq
  rcases getUnique_some_parts _ _ _ _ g2 with ⟨hcA, iA, hiA, hvA⟩
  rcases getUnique_some_parts _ _ _ _ g3 with ⟨hcB, iB, hiB, hvB⟩
  rcases getUnique_some_parts _ _ _ _ g4 with ⟨hcC, iC, hiC, hvC⟩
  have hAD : iA ≠ iD' := fun e =>
    absurd (colIdx_inj hdr "total_aircraft" "date" iD' (e ▸ hiA) hD) (by decide)
  have hBD : iB ≠ iD' := fun e =>
    absurd (colIdx_inj hdr "enter_adiz" "date" iD' (e ▸ hiB) hD) (by decide)
  have hCD : iC ≠ iD' := fun e =>
    absurd (colIdx_inj hdr "ships" "date" iD' (e ▸ hiC) hD) (by decide)
  have hHD : cellAt (reimportRow parse iD' r) iD' = Val.vdate dt := by
    unfold reimportRow
    rw [cellAt_mapAt (toDatetimeCell parse) rfl iD']
    rw [cellAt_map_of_ne _ iD' r (by rw [hvD]; simp)]
    rw [hvD]
    exact hpd
  have hHA : cellAt (reimportRow parse iD' r) iA = Val.vint a := by
    unfold reimportRow
    rw [cellAt_mapAt_ne iD' iA _ _ hAD]
    rw [cellAt_map_of_ne _ iA r (by rw [hvA]; simp)]
    rw [hvA]
    exact hra
  have hHB : cellAt (reimportRow parse iD' r) iB = Val.vint b := by
    unfold reimportRow
    rw [cellAt_mapAt_ne iD' iB _ _ hBD]
    rw [cellAt_map_of_ne _ iB r (by rw [hvB]; simp)]
    rw [hvB]
    exact hrb
  have hHC : cellAt (reimportRow parse iD' r) iC = Val.vint c := by
    unfold reimportRow
    rw [cellAt_mapAt_ne iD' iC _ _ hCD]
    rw [cellAt_map_of_ne _ iC r (by rw [hvC]; simp)]
    rw [hvC]
    exact hrc
  have hfD : cellAt (fillnaRow (reimportRow parse iD' r)) iD' = Val.vdate dt := by
    rw [cellAt_fillnaRow_ne_na iD' _ (by rw [hHD]; simp)]
    exact hHD
  have hfA : cellAt (fillnaRow (reimportRow parse iD' r)) iA = Val.vint a := by
    rw [cellAt_fillnaRow_ne_na iA _ (by rw [hHA]; simp)]
    exact hHA
  have hfB : cellAt (fillnaRow (reimportRow parse iD' r)) iB = Val.vint b := by
    rw [cellAt_fillnaRow_ne_na iB _ (by rw [hHB]; simp)]
    exact hHB
  have hfC : cellAt (fillnaRow (reimportRow parse iD' r)) iC = Val.vint c := by
    rw [cellAt_fillnaRow_ne_na iC _ (by rw [hHC]; simp)]
    exact hHC
  refine ⟨hHD, by simp [rowKey, hvD], ?_⟩
  exact recordOf_of_parts hdr _ dt a b c
    (getUnique_of hdr _ "date" iD' _ hcD hD hfD)
    (getUnique_of hdr _ "total_aircraft" iA _ hcA hiA hfA)
    (getUnique_of hdr _ "enter_adiz" iB _ hcB hiB hfB)
    (getUnique_of hdr _ "ships" iC _ hcC hiC hfC)


theorem isSortedDesc_tail {α : Type} (k : α → Nat) (b : α) (t : List α)
    (h : isSortedDesc k (b :: t) = true) : isSortedDesc k t = true := by
  cases t with
  | nil => rfl
  | cons c t' =>
      simp only [isSortedDesc, Bool.and_eq_true] at h
      exact h.2

theorem isSortedDesc_head_ge {α : Type} (k : α → Nat) :
    ∀ (b : α) (t : List α), isSortedDesc k (b :: t) = true → ∀ x ∈ t, k x ≤ k b
  | _, [], _, x, hx => absurd hx (List.not_mem_nil x)
  | b, c :: t', h, x, hx => by
      simp only [isSortedDesc, Bool.and_eq_true, decide_eq_true_eq] at h
      rcases List.mem_cons.mp hx with rfl | hx'
      · exact h.1
      · exact Nat.le_trans (isSortedDesc_head_ge k c t' h.2 x hx') h.1

/-- On a list whose keys are strictly descending, every admissible result
of the (unstable) sort is the list itself: with no ties, the unspecified
tie order cannot matter. -/
theorem admissibleSort_unique {α : Type} (k : α → Nat) :
    ∀ (l l' : List α), List.Chain' (fun a b => k b < k a) l →
      l'.Perm l → isSortedDesc k l' = true → l' = l
  | [], l', _, hp, _ => List.Perm.eq_nil hp
  | a :: t, l', hch, hp, hs => by
      cases l' with
      | nil =>
          have hne := List.Perm.eq_nil hp.symm
          exact absurd hne (by simp)
      | cons b t' =>
          have hpw : (a :: t).Pairwise (fun x y => k y < k x) :=
            (@List.chain'_iff_pairwise α (fun x y => k y < k x)
              ⟨fun x y z hxy hyz => Nat.lt_trans hyz hxy⟩ (a :: t)).mp hch
          have hta : ∀ x ∈ t, k x < k a := (List.pairwise_cons.mp hpw).1
          have hb_mem : b ∈ a :: t := (hp.mem_iff).mp (List.mem_cons_self b t')
          have hba : b = a := by
            rcases List.mem_cons.mp hb_mem with rfl | hbt
            · rfl
            · have ha_mem : a ∈ b :: t' := (hp.mem_iff).mpr (List.mem_cons_self a t)
              have hle : k a ≤ k b := by
                rcases List.mem_cons.mp ha_mem with rfl | hat'
                · exact Nat.le_refl _
                · exact isSortedDesc_head_ge k b t' hs a hat'
              exact ((Nat.lt_irrefl _ (Nat.lt_of_lt_of_le (hta b hbt) hle)).elim)
          subst hba
          have ht' : t'.Perm t := hp.cons_inv
          have hch' : List.Chain' (fun x y => k y < k x) t := hch.tail
          rw [admissibleSort_unique k t t' hch' ht' (isSortedDesc_tail k b t' hs)]

/-- C6 counterexample: a Filtered View with two well-formed Records
sharing the date 2024-01-01 (descending order, so a View the claim
covers).  The reload pipeline reproduces both rows up to the sort, but
the swapped order is an equally admissible outcome of the unstable
`sort_values`, and it yields different Records row-for-row — so the
program does not guarantee a row-for-row identical round trip. -/
theorem C6_counterexample_unstable_tie_order :
    (∀ r ∈ [dupRow1, dupRow2], (recordOf viewHeader r).isSome = true) ∧
    List.Chain' (fun a b => rowKey 0 b ≤ rowKey 0 a) [dupRow1, dupRow2] ∧
    ((((renameTable (exportTable ⟨viewHeader, [dupRow1, dupRow2]⟩)).rows.map
          (mapAt 0 (toDatetimeCell parseIso))).filter
          (fun r => notnaVal (cellAt r 0))).filter
          (fun r => yearOk (cellAt r 0))) = [dupRow1, dupRow2] ∧
    sortValuesAdmissible (rowKey 0) [dupRow1, dupRow2] [dupRow2, dupRow1] ∧
    ([dupRow2, dupRow1].map fillnaRow).map (recordOf viewHeader) ≠
      ([dupRow1, dupRow2] : List (List Val)).map (recordOf viewHeader) := by
  refine ⟨by decide, List.chain'_cons.mpr ⟨by decide, List.chain'_singleton _⟩, by decide,
    ⟨List.Perm.swap dupRow1 dupRow2 [], by decide⟩, by decide⟩

/-- C6 (amended): for a well-formed Filtered View whose dates are
strictly descending (no duplicate dates), exporting and re-parsing with
the same Normalizer succeeds and yields row-for-row identical canonical
Records; moreover this holds for every admissible result of the reload's
(unstable) sort, so the unspecified tie order cannot affect it. -/
theorem C6_export_roundtrip_distinct_dates
    (parse : String → Option Date) (view : Table) (iD : Nat)
    (hfix : view.header.map rn = view.header)
    (hD : colIdx view.header "date" = some iD)
    (hrec : ∀ r ∈ view.rows, (recordOf view.header r).isSome = true)
    (hcells : ∀ rec ∈ view.rows.filterMap (recordOf view.header),
      toDatetimeCell parse (readCell (csvCell (Val.vdate rec.1))) = Val.vdate rec.1 ∧
      yearOk (Val.vdate rec.1) = true ∧
      readCell (csvCell (Val.vint rec.2.1)) = Val.vint rec.2.1 ∧
      readCell (csvCell (Val.vint rec.2.2.1)) = Val.vint rec.2.2.1 ∧
      readCell (csvCell (Val.vint rec.2.2.2)) = Val.vint rec.2.2.2)
    (hsorted : List.Chain' (fun a b => rowKey iD b < rowKey iD a) view.rows) :
    (∃ out2, loadData parse (exportTable view) = some out2 ∧
      out2.header = view.header ∧
      out2.rows.map (recordOf out2.header) = view.rows.map (recordOf view.header)) ∧
    (∀ rows4 : List (List Val),
      sortValuesAdmissible (rowKey iD)
        ((((renameTable (exportTable view)).rows.map
            (mapAt iD (toDatetimeCell parse))).filter
            (fun r => notnaVal (cellAt r iD))).filter
            (fun r => yearOk (cellAt r iD))) rows4 →
      (rows4.map fillnaRow).map (recordOf view.header) =
        view.rows.map (recordOf view.header)) := by
  have hcol2 : colIdx (renameTable (exportTable view)).header "date" = some iD := by
    show colIdx (view.header.map rn) "date" = some iD
    rw [hfix]
    exact hD
  have key : ∀ r ∈ view.rows, ∃ dt : Date, ∃ a b c : Int,
      recordOf view.header r = some (dt, a, b, c) ∧
      cellAt (reimportRow parse iD r) iD = Val.vdate dt ∧
      yearOk (Val.vdate dt) = true ∧
      rowKey iD r = dt.key ∧
      recordOf view.header (fillnaRow (reimportRow parse iD r)) = some (dt, a, b, c) := by
    intro r hr
    rcases Option.isSome_iff_exists.mp (hrec r hr) with ⟨⟨dt, a, b, c⟩, hro⟩
    have hmem : (dt, a, b, c) ∈ view.rows.filterMap (recordOf view.header) :=
      List.mem_filterMap.mpr ⟨r, hr, hro⟩
    rcases hcells _ hmem with ⟨hpd, hyok, hra, hrb, hrc⟩
    rcases reimport_row_facts parse view.header iD hD r dt a b c hro hpd hra hrb hrc with
      ⟨h1, h2, h3⟩
    exact ⟨dt, a, b, c, hro, h1, hyok, h2, h3⟩
  have hbase : (renameTable (exportTable view)).rows.map (mapAt iD (toDatetimeCell parse)) =
      view.rows.map (reimportRow parse iD) := by
    show (view.rows.map (fun r => r.map (fun v => readCell (csvCell v)))).map
        (mapAt iD (toDatetimeCell parse)) = _
    rw [List.map_map]
    rfl
  have hf1 : (view.rows.map (reimportRow parse iD)).filter
      (fun r => notnaVal (cellAt r iD)) = view.rows.map (reimportRow parse iD) := by
    rw [List.filter_eq_self]
    intro x hx
    rcases List.mem_map.mp hx with ⟨r, hr, rfl⟩
    rcases key r hr with ⟨dt, a, b, c, _, hHD, _, _, _⟩
    rw [hHD]
    rfl
  have hf2 : (view.rows.map (reimportRow parse iD)).filter
      (fun r => yearOk (cellAt r iD)) = view.rows.map (reimportRow parse iD) := by
    rw [List.filter_eq_self]
    intro x hx
    rcases List.mem_map.mp hx with ⟨r, hr, rfl⟩
    rcases key r hr with ⟨dt, a, b, c, _, hHD, hyok, _, _⟩
    rw [hHD]
    exact hyok
  have hkeyeq : ∀ r ∈ view.rows, rowKey iD (reimportRow parse iD r) = rowKey iD r := by
    intro r hr
    rcases key r hr with ⟨dt, _, _, _, _, hHD, _, hk, _⟩
    rw [show rowKey iD (reimportRow parse iD r) = dt.key from by simp [rowKey, hHD]]
    rw [hk]
  have hstrict : List.Chain' (fun a b => rowKey iD b < rowKey iD a)
      (view.rows.map (reimportRow parse iD)) := by
    rw [List.chain'_map]
    have hpw : view.rows.Pairwise (fun a b => rowKey iD b < rowKey iD a) :=
      (@List.chain'_iff_pairwise (List Val) (fun a b => rowKey iD b < rowKey iD a)
        ⟨fun a b c hab hbc => Nat.lt_trans hbc hab⟩ view.rows).mp hsorted
    apply List.Pairwise.chain'
    refine hpw.imp_of_mem ?_
    intro a b ha hb hab
    rw [hkeyeq a ha, hkeyeq b hb]
    exact hab
  have hfinal : ∀ rows1 : List (List Val), rows1 = view.rows.map (reimportRow parse iD) →
      (rows1.map fillnaRow).map (recordOf view.header) =
        view.rows.map (recordOf view.header) := by
    intro rows1 h1
    subst h1
    rw [List.map_map, List.map_map]
    apply List.map_congr_left
    intro r hr
    rcases key r hr with ⟨dt, a, b, c, hro, _, _, _, hrecon⟩
    show recordOf view.header (fillnaRow (reimportRow parse iD r)) = recordOf view.header r
    rw [hrecon, hro]
  constructor
  · have hsorted_le : List.Chain' (fun a b => rowKey iD b ≤ rowKey iD a)
        (view.rows.map (reimportRow parse iD)) :=
      hstrict.imp (fun {a b} h => Nat.le_of_lt h)
    have hs : sortDesc (rowKey iD) (view.rows.map (reimportRow parse iD)) =
        view.rows.map (reimportRow parse iD) :=
      sortDesc_eq_self _ _ hsorted_le
    simp only [loadData, hcol2]
    rw [hbase, hf1, hf2, hs]
    refine ⟨_, rfl, hfix, ?_⟩
    have hhdr2 : (renameTable (exportTable view)).header = view.header := hfix
    rw [hhdr2]
    exact hfinal _ rfl
  · intro rows4 hadm
    rw [hbase, hf1, hf2] at hadm
    have h4 : rows4 = view.rows.map (reimportRow parse iD) :=
      admissibleSort_unique (rowKey iD) _ rows4 hstrict hadm.1 hadm.2
    exact hfinal rows4 h4

theorem C6_export_roundtrip_distinct_dates_witness :
    viewHeader.map rn = viewHeader ∧
    colIdx viewHeader "date" = some 0 ∧
    (∀ r ∈ [viewRow0, viewRow1], (recordOf viewHeader r).isSome = true) ∧
    (∀ rec ∈ ([viewRow0, viewRow1] : List (List Val)).filterMap (recordOf viewHeader),
      toDatetimeCell parseIso (readCell (csvCell (Val.vdate rec.1))) = Val.vdate rec.1 ∧
      yearOk (Val.vdate rec.1) = true ∧
      readCell (csvCell (Val.vint rec.2.1)) = Val.vint rec.2.1 ∧
      readCell (csvCell (Val.vint rec.2.2.1)) = Val.vint rec.2.2.1 ∧
      readCell (csvCell (Val.vint rec.2.2.2)) = Val.vint rec.2.2.2) ∧
    List.Chain' (fun a b => rowKey 0 b < rowKey 0 a) [viewRow0, viewRow1] ∧
    ((∃ out2, loadData parseIso (exportTable ⟨viewHeader, [viewRow0, viewRow1]⟩) = some out2 ∧
        out2.header = viewHeader ∧
        out2.rows.map (recordOf out2.header) =
          ([viewRow0, viewRow1] : List (List Val)).map (recordOf viewHeader)) ∧
      (∀ rows4 : List (List Val),
        sortValuesAdmissible (rowKey 0)
          ((((renameTable (exportTable ⟨viewHeader, [viewRow0, viewRow1]⟩)).rows.map
              (mapAt 0 (toDatetimeCell parseIso))).filter
              (fun r => notnaVal (cellAt r 0))).filter
              (fun r => yearOk (cellAt r 0))) rows4 →
        (rows4.map fillnaRow).map (recordOf viewHeader) =
          ([viewRow0, viewRow1] : List (List Val)).map (recordOf viewHeader))) :=
  ⟨by decide, by decide, by decide, by decide,
    List.chain'_cons.mpr ⟨by decide, List.chain'_singleton _⟩,
    C6_export_roundtrip_distinct_dates parseIso ⟨viewHeader, [viewRow0, viewRow1]⟩ 0
      (by decide) (by decide) (by decide) (by decide)
      (List.chain'_cons.mpr ⟨by decide, List.chain'_singleton _⟩)⟩
